import Mathlib

/-!
Shallow embedding of the IMDb-analysis notebook (`imdb_analysis.ipynb`).

The notebook is a linear ETL recipe: it loads IMDb TSV dumps into catalog
tables (guarded overwrite), fetches yearly box-office entries and stamps each
entry's partial release date with the loop year, cleans the currency columns,
parses the release dates, queries the catalog for movie/non-adult title rows
joined with their ratings, derives a primary genre by intersecting the
comma-split genre list with a fixed vocabulary, inner-joins box-office rows to
title rows on exact title equality, and renames the output columns.

Nullable table cells are modelled as `Option String` (the loader turns the
literal two-character sentinel `\N` into a null).  Spark's `cast("float")` on
strings (non-ANSI) is Java `Float.parseFloat` with a fallback to Spark's
special float literals, producing a binary32 value; it is modelled by a
parser of the Java grammar (sign, `NaN`/`Infinity`, decimal literals with
optional fraction, exponent and type suffix, hexadecimal literals) followed
by exact round-to-nearest-even binary32 rounding, with finite values carried
as the exact rationals they denote and infinities/NaN as distinguished
values.  Lists model dataframes; row order is irrelevant to every claim.
-/

namespace ImdbAnalysis

/-- The fixed genre vocabulary (source cell "Define List of Movie Genres"). -/
def genres : List String :=
  ["Action", "Adventure", "Comedy", "Drama", "Fantasy", "Horror", "Mystery",
   "Romance", "Science Fiction", "Thriller", "Western", "Animation", "Crime",
   "Documentary", "Family", "Musical", "War", "Historical", "Sports",
   "Biography"]

/-- Split a character list on a separator character, keeping empty segments
(the behaviour of Spark `split(col, ",")`, i.e. Java `split` with limit -1). -/
def splitOnChar (c : Char) : List Char → List (List Char)
  | [] => [[]]
  | x :: xs =>
    match splitOnChar c xs with
    | [] => if x = c then [[], []] else [[x]]
    | h :: t => if x = c then [] :: h :: t else (x :: h) :: t

/-- Spark `split(col("genres"), ",")` on a concrete string. -/
def splitGenres (s : String) : List String :=
  (splitOnChar ',' s.toList).map (fun cs => String.mk cs)

/-- Keep the first occurrence of each element, dropping later duplicates
(the dedup performed by Spark `array_intersect`). -/
def dedupAux : List String → List String → List String
  | [], _ => []
  | x :: xs, seen => if x ∈ seen then dedupAux xs seen else x :: dedupAux xs (x :: seen)

def dedup (l : List String) : List String := dedupAux l []

/-- Spark `array_intersect(a, b)`: the elements of `a` that also occur in `b`,
in `a`'s order, without duplicates. -/
def array_intersect (a b : List String) : List String :=
  dedup (a.filter (fun x => decide (x ∈ b)))

/-- The derived primary genre of a (nullable) genre string: Spark
`element_at(array_intersect(split(genres, ","), vocabulary), 1)`, with null
propagating through `split`, `array_intersect` and `element_at`. -/
def primaryGenreOf (g : Option String) : Option String :=
  match g with
  | none => none
  | some s => (array_intersect (splitGenres s) genres).head?

/-- Numeric value of a digit character. -/
def digitVal (c : Char) : Nat := c.toNat - 48

/-- Value of a digit list read in base 10 (empty list denotes 0). -/
def natOfDigits (cs : List Char) : Nat :=
  cs.foldl (fun a c => a * 10 + digitVal c) 0

/-- A single-precision (binary32) float value: a finite value (stored as the
exact rational it denotes), an infinity, or NaN. -/
inductive F32 where
  | finite (q : ℚ)
  | inf
  | neginf
  | nan
deriving DecidableEq

/-- Float negation. -/
def F32.neg : F32 → F32
  | finite q => finite (-q)
  | inf => neginf
  | neginf => inf
  | nan => nan

/-- `2 ^ e` over ℚ for an integer exponent. -/
def twoPow (e : Int) : ℚ :=
  if 0 ≤ e then mkRat ((2 ^ e.toNat : ℕ) : ℤ) 1 else mkRat 1 (2 ^ (-e).toNat)

/-- The exact rational value of the decimal literal `ip.fp × 10 ^ k`
(integer digits `ip`, fraction digits `fp`, decimal exponent `k`). -/
def decValue (ip fp : List Char) (k : Int) : ℚ :=
  if 0 ≤ k then
    mkRat (((natOfDigits ip : ℤ) * ((10 ^ fp.length : ℕ) : ℤ) +
      (natOfDigits fp : ℤ)) * ((10 ^ k.toNat : ℕ) : ℤ)) (10 ^ fp.length)
  else
    mkRat ((natOfDigits ip : ℤ) * ((10 ^ fp.length : ℕ) : ℤ) +
      (natOfDigits fp : ℤ)) (10 ^ fp.length * 10 ^ (-k).toNat)

/-- Round `a / b` (with `b > 0`) to the nearest integer, ties to even. -/
def rneDiv (a b : ℤ) : ℤ :=
  let fl := Int.fdiv a b
  let r := a - fl * b
  if 2 * r < b then fl
  else if b < 2 * r then fl + 1
  else if fl % 2 = 0 then fl else fl + 1

/-- Find the binary32 grid exponent for a positive rational: the smallest
`e ≥ -149` with `q < 2 ^ (e + 24)` (fuel-bounded; exhaustion can only happen
far beyond the overflow threshold, where the result is Infinity anyway). -/
def findExpAux : Nat → Int → ℚ → Int
  | 0, e, _ => e
  | fuel + 1, e, q => if twoPow (e + 24) ≤ q then findExpAux fuel (e + 1) q else e

def findExp (q : ℚ) : Int := findExpAux 300 (-149) q

/-- Round a positive rational to binary32: round-to-nearest-even onto the
grid of significand multiples of `2 ^ e` (subnormals at `e = -149`), with
overflow to Infinity at `2 ^ 128`. -/
def roundF32Pos (q : ℚ) : F32 :=
  let e := findExp q
  let n : ℤ :=
    if 0 ≤ e then rneDiv q.num ((q.den : ℤ) * ((2 ^ e.toNat : ℕ) : ℤ))
    else rneDiv (q.num * ((2 ^ (-e).toNat : ℕ) : ℤ)) (q.den : ℤ)
  let r : ℚ :=
    if 0 ≤ e then mkRat (n * ((2 ^ e.toNat : ℕ) : ℤ)) 1
    else mkRat n (2 ^ (-e).toNat)
  if twoPow 128 ≤ r then F32.inf else F32.finite r

/-- Round any rational to the nearest binary32 value (ties to even). -/
def roundF32 (q : ℚ) : F32 :=
  if q < 0 then F32.neg (roundF32Pos (-q))
  else if q = 0 then F32.finite 0
  else roundF32Pos q

/-- Hexadecimal digit test. -/
def isHexDig (c : Char) : Bool :=
  c.isDigit || (decide ('a' ≤ c) && decide (c ≤ 'f')) ||
    (decide ('A' ≤ c) && decide (c ≤ 'F'))

/-- Numeric value of a hexadecimal digit character. -/
def hexDigitVal (c : Char) : Nat :=
  if c.isDigit then digitVal c
  else if decide ('a' ≤ c) && decide (c ≤ 'f') then c.toNat - 87
  else c.toNat - 55

/-- Value of a hex-digit list read in base 16. -/
def natOfHexDigits (cs : List Char) : Nat :=
  cs.foldl (fun a c => a * 16 + hexDigitVal c) 0

/-- The exact rational value of the hexadecimal literal `hm.hf × 2 ^ k`
(hex integer digits `hm`, hex fraction digits `hf`, binary exponent `k`). -/
def hexValue (hm hf : List Char) (k : Int) : ℚ :=
  if 0 ≤ k then
    mkRat (((natOfHexDigits hm : ℤ) * ((16 ^ hf.length : ℕ) : ℤ) +
      (natOfHexDigits hf : ℤ)) * ((2 ^ k.toNat : ℕ) : ℤ)) (16 ^ hf.length)
  else
    mkRat ((natOfHexDigits hm : ℤ) * ((16 ^ hf.length : ℕ) : ℤ) +
      (natOfHexDigits hf : ℤ)) (16 ^ hf.length * 2 ^ (-k).toNat)

/-- Java `String.trim`: remove leading/trailing characters with codepoint at
most U+0020 (both `Float.parseFloat` and Spark's special-literal handling
trim this way). -/
def isJavaSpace (c : Char) : Bool := decide (c ≤ ' ')

def trimJava (cs : List Char) : List Char :=
  ((cs.dropWhile isJavaSpace).reverse.dropWhile isJavaSpace).reverse

/-- A Java float-type suffix character (`f`, `F`, `d`, `D`). -/
def isSuffixChar (c : Char) : Bool :=
  decide (c = 'f') || decide (c = 'F') || decide (c = 'd') || decide (c = 'D')

/-- Strip one trailing float-type suffix character, if present. -/
def stripFloatSuffix (cs : List Char) : List Char :=
  match cs.reverse with
  | c :: rest => if isSuffixChar c then rest.reverse else cs
  | [] => cs

/-- Parse a signed exponent-part digit string (`digits`, `+digits`,
`-digits`). -/
def parseExpInt (cs : List Char) : Option Int :=
  match cs with
  | '-' :: ds =>
    if !ds.isEmpty && ds.all Char.isDigit then some (-(natOfDigits ds : Int))
    else none
  | '+' :: ds =>
    if !ds.isEmpty && ds.all Char.isDigit then some ((natOfDigits ds : Int))
    else none
  | ds =>
    if !ds.isEmpty && ds.all Char.isDigit then some ((natOfDigits ds : Int))
    else none

/-- The suffix-stripped decimal core of a Java floating-point literal:
`digits [. digits] [ (e|E) signed-digits ]`, with at least one mantissa
digit; the resulting exact rational is rounded to binary32. -/
def decCore (cs : List Char) : Option F32 :=
  match cs.dropWhile Char.isDigit with
  | [] =>
    if (cs.takeWhile Char.isDigit).isEmpty then none
    else some (roundF32 ((natOfDigits (cs.takeWhile Char.isDigit) : ℚ)))
  | '.' :: rest2 =>
    match rest2.dropWhile Char.isDigit with
    | [] =>
      if (cs.takeWhile Char.isDigit).isEmpty &&
         (rest2.takeWhile Char.isDigit).isEmpty then none
      else some (roundF32 (decValue (cs.takeWhile Char.isDigit)
        (rest2.takeWhile Char.isDigit) 0))
    | e :: erest =>
      if (decide (e = 'e') || decide (e = 'E')) &&
         !((cs.takeWhile Char.isDigit).isEmpty &&
           (rest2.takeWhile Char.isDigit).isEmpty)
      then (parseExpInt erest).map (fun k =>
        roundF32 (decValue (cs.takeWhile Char.isDigit)
          (rest2.takeWhile Char.isDigit) k))
      else none
  | e :: erest =>
    if (decide (e = 'e') || decide (e = 'E')) &&
       !(cs.takeWhile Char.isDigit).isEmpty
    then (parseExpInt erest).map (fun k =>
      roundF32 (decValue (cs.takeWhile Char.isDigit) [] k))
    else none

/-- A Java decimal floating-point literal with optional type suffix. -/
def parseDecFloat (cs : List Char) : Option F32 :=
  decCore (stripFloatSuffix cs)

/-- The suffix-stripped hexadecimal core of a Java floating-point literal:
`0 (x|X) hexdigits [. hexdigits] (p|P) signed-digits`, with at least one
mantissa digit and a mandatory binary exponent. -/
def hexCore (cs : List Char) : Option F32 :=
  match cs with
  | '0' :: x :: cs2 =>
    if decide (x = 'x') || decide (x = 'X') then
      match cs2.dropWhile isHexDig with
      | [] => none
      | '.' :: rest2 =>
        match rest2.dropWhile isHexDig with
        | [] => none
        | p :: er =>
          if (decide (p = 'p') || decide (p = 'P')) &&
             !((cs2.takeWhile isHexDig).isEmpty &&
               (rest2.takeWhile isHexDig).isEmpty)
          then (parseExpInt er).map (fun k =>
            roundF32 (hexValue (cs2.takeWhile isHexDig)
              (rest2.takeWhile isHexDig) k))
          else none
      | p :: er =>
        if (decide (p = 'p') || decide (p = 'P')) &&
           !(cs2.takeWhile isHexDig).isEmpty
        then (parseExpInt er).map (fun k =>
          roundF32 (hexValue (cs2.takeWhile isHexDig) [] k))
        else none
    else none
  | _ => none

/-- A Java hexadecimal floating-point literal with optional type suffix. -/
def parseHexFloat (cs : List Char) : Option F32 :=
  hexCore (stripFloatSuffix cs)

/-- An unsigned Java float string: `NaN`, `Infinity`, or a decimal or
hexadecimal floating-point literal. -/
def parseUnsigned (cs : List Char) : Option F32 :=
  if cs = "NaN".toList then some F32.nan
  else if cs = "Infinity".toList then some F32.inf
  else
    match parseHexFloat cs with
    | some v => some v
    | none => parseDecFloat cs

/-- Java `Float.parseFloat` after trimming: optional sign, then an unsigned
float string; anything else fails. -/
def parseJavaFloat (cs : List Char) : Option F32 :=
  match cs with
  | '-' :: rest => (parseUnsigned rest).map F32.neg
  | '+' :: rest => parseUnsigned rest
  | _ => parseUnsigned cs

/-- Spark's fallback for float-cast failures: the special literals `inf`,
`+inf`, `-inf`, `infinity`, `+infinity`, `-infinity` and `nan`, compared
case-insensitively. -/
def parseSparkSpecial (cs : List Char) : Option F32 :=
  if cs.map Char.toLower = "inf".toList ∨ cs.map Char.toLower = "+inf".toList ∨
     cs.map Char.toLower = "infinity".toList ∨
     cs.map Char.toLower = "+infinity".toList then some F32.inf
  else if cs.map Char.toLower = "-inf".toList ∨
     cs.map Char.toLower = "-infinity".toList then some F32.neginf
  else if cs.map Char.toLower = "nan".toList then some F32.nan
  else none

/-- Spark `col.cast("float")` on a string column cell (non-ANSI mode): try
Java `Float.parseFloat` on the trimmed string; on failure, try Spark's
special float literals; otherwise the cell becomes null.  Finite results are
binary32 values, represented exactly. -/
def castFloat (s : String) : Option F32 :=
  match parseJavaFloat (trimJava s.toList) with
  | some v => some v
  | none => parseSparkSpecial (trimJava s.toList)

/-- Remove every occurrence of a character (Spark
`regexp_replace(col, pat, "")` for a single-character pattern). -/
def removeAllChar (c : Char) (s : String) : String :=
  String.mk (s.toList.filter (fun x => decide (x ≠ c)))

/-- The currency cleanup applied to `Gross` and `Total Gross`:
`regexp_replace(col, "\\$", "")` then `regexp_replace(col, ",", "")`. -/
def cleanCurrency (s : String) : String :=
  removeAllChar ',' (removeAllChar '$' s)

/-- The full numeric conversion the pipeline applies to a gross-revenue text
field: strip currency characters, then cast to a (nullable) number. -/
def grossToNumber (s : String) : Option F32 := castFloat (cleanCurrency s)

/-- A calendar date value (`to_date` output). -/
structure SDate where
  year : Nat
  month : Nat
  day : Nat
deriving DecidableEq

/-- Month abbreviations accepted by the `MMM` pattern. -/
def monthAbbrevs : List String :=
  ["Jan", "Feb", "Mar", "Apr", "May", "Jun",
   "Jul", "Aug", "Sep", "Oct", "Nov", "Dec"]

/-- Spark `to_date(col, "MMM d yyyy")`: abbreviated month name, 1-2 digit
day, 4 digit year, separated by single spaces; anything else becomes null.
(Full per-month day-count validation is outside the model.) -/
def parseDate (s : String) : Option SDate :=
  match (splitOnChar ' ' s.toList).map (fun cs => String.mk cs) with
  | [m, d, y] =>
    match monthAbbrevs.findIdx? (fun x => x = m) with
    | none => none
    | some mi =>
      let dcs := d.toList
      let ycs := y.toList
      if !dcs.isEmpty && dcs.all Char.isDigit && decide (dcs.length ≤ 2)
          && decide (1 ≤ natOfDigits dcs) && decide (natOfDigits dcs ≤ 31)
          && !ycs.isEmpty && ycs.all Char.isDigit && decide (ycs.length = 4)
      then some ⟨natOfDigits ycs, mi + 1, natOfDigits dcs⟩
      else none
  | _ => none

/-! ### Catalog tables and the enrichment query

The loaded `title_basics` and `title_ratings` tables have all-string nullable
cells (the TSV reader infers no types and the loader nullifies the `\N`
sentinel).  Only the columns the notebook touches are modelled; the remaining
columns are opaque pass-through data that no claim mentions. -/

/-- A row of the `title_basics` catalog table. -/
structure TitleBasicsRow where
  tconst : Option String
  titleType : Option String
  primaryTitle : Option String
  isAdult : Option String
  runtimeMinutes : Option String
  genres : Option String
deriving DecidableEq

/-- A row of the `title_ratings` catalog table. -/
structure TitleRatingsRow where
  tconst : Option String
  averageRating : Option String
  numVotes : Option String
deriving DecidableEq

/-- A row produced by the notebook's `imdb_query` projection. -/
structure ImdbQueryRow where
  tconst : Option String
  primaryTitle : Option String
  runtimeMinutes : Option String
  genres : Option String
  averageRating : Option String
  numVotes : Option String
deriving DecidableEq

/-- SQL equality over nullable cells: null compares unequal to everything. -/
def eqNotNull (a b : Option String) : Bool :=
  match a, b with
  | some x, some y => x = y
  | _, _ => false

/-- The projection of the query's SELECT list. -/
def mkImdbRow (b : TitleBasicsRow) (r : TitleRatingsRow) : ImdbQueryRow :=
  { tconst := b.tconst, primaryTitle := b.primaryTitle,
    runtimeMinutes := b.runtimeMinutes, genres := b.genres,
    averageRating := r.averageRating, numVotes := r.numVotes }

/-- The catalog query: `title_basics` inner-joined to `title_ratings` on
`tconst`, restricted to `titleType = 'movie'` and `isAdult = '0'`. -/
def imdbQuery (tb : List TitleBasicsRow) (tr : List TitleRatingsRow) :
    List ImdbQueryRow :=
  (tb.filter (fun b => decide (b.titleType = some "movie") &&
                       decide (b.isAdult = some "0"))).flatMap
    (fun b => (tr.filter (fun r => eqNotNull b.tconst r.tconst)).map
      (fun r => mkImdbRow b r))

/-- A title row after the genre-derivation columns are added and the
intermediate `genres`, `GenreArray` and `Matches` columns are dropped. -/
structure EnrichedTitleRow where
  tconst : Option String
  primaryTitle : Option String
  runtimeMinutes : Option String
  averageRating : Option String
  numVotes : Option String
  Primary_Genre : Option String
deriving DecidableEq

/-- Add the derived `Primary_Genre` column and drop the genre scratch
columns. -/
def addPrimaryGenre (r : ImdbQueryRow) : EnrichedTitleRow :=
  { tconst := r.tconst, primaryTitle := r.primaryTitle,
    runtimeMinutes := r.runtimeMinutes, averageRating := r.averageRating,
    numVotes := r.numVotes, Primary_Genre := primaryGenreOf r.genres }

/-- The full title side of the pipeline: catalog query, then genre
derivation. -/
def enrichedTitles (tb : List TitleBasicsRow) (tr : List TitleRatingsRow) :
    List EnrichedTitleRow :=
  (imdbQuery tb tr).map addPrimaryGenre

/-! ### Box-office records and the merge -/

/-- A raw box-office entry as returned by the provider (the fields the
pipeline manipulates; further provider fields pass through untouched and are
omitted).  `ReleaseDate` models the `Release Date` column. -/
structure RawBoxRow where
  Release : String
  ReleaseDate : String
  Gross : String
  TotalGross : String
deriving DecidableEq

/-- A box-office row after currency cleaning, float casts and date parsing. -/
structure CleanBoxRow where
  Release : String
  ReleaseDate : Option SDate
  Gross : Option F32
  TotalGross : Option F32
deriving DecidableEq

/-- The column transformations the notebook applies to the box-office
dataframe before the join. -/
def cleanBoxRow (r : RawBoxRow) : CleanBoxRow :=
  { Release := r.Release, ReleaseDate := parseDate r.ReleaseDate,
    Gross := grossToNumber r.Gross, TotalGross := grossToNumber r.TotalGross }

/-- A row of the merged output table, with the final column names
(`Release Date` → `Release_Date`, `Gross` → `Gross_Earnings`,
`Total Gross` → `Total_Gross_Earnings`). -/
structure MergedRow where
  Release : String
  Release_Date : Option SDate
  Gross_Earnings : Option F32
  Total_Gross_Earnings : Option F32
  tconst : Option String
  primaryTitle : Option String
  runtimeMinutes : Option String
  averageRating : Option String
  numVotes : Option String
  Primary_Genre : Option String
deriving DecidableEq

def mkMergedRow (b : CleanBoxRow) (t : EnrichedTitleRow) : MergedRow :=
  { Release := b.Release, Release_Date := b.ReleaseDate,
    Gross_Earnings := b.Gross, Total_Gross_Earnings := b.TotalGross,
    tconst := t.tconst, primaryTitle := t.primaryTitle,
    runtimeMinutes := t.runtimeMinutes, averageRating := t.averageRating,
    numVotes := t.numVotes, Primary_Genre := t.Primary_Genre }

/-- `df.join(imdb_df, df.Release == imdb_df.primaryTitle, "inner")`: SQL
equality, so a null `primaryTitle` matches nothing. -/
def joinBoxTitles (bs : List CleanBoxRow) (ts : List EnrichedTitleRow) :
    List MergedRow :=
  bs.flatMap (fun b =>
    (ts.filter (fun t => decide (t.primaryTitle = some b.Release))).map
      (fun t => mkMergedRow b t))

/-- The whole enrichment/merge pipeline, from raw box-office entries and the
two catalog tables to the merged output rows. -/
def pipeline (rawBox : List RawBoxRow) (tb : List TitleBasicsRow)
    (tr : List TitleRatingsRow) : List MergedRow :=
  joinBoxTitles (rawBox.map cleanBoxRow) (enrichedTitles tb tr)

/-! ### The bulk file loader -/

/-- A catalog table: rows of nullable string cells. -/
def Table : Type := List (List (Option String))

instance : DecidableEq Table := by
  unfold Table; infer_instance

/-- A decompressed TSV file: its name and its parsed rows (header excluded;
TSV tokenization itself is delegated to the reader). -/
structure TsvFile where
  name : String
  rows : List (List String)
deriving DecidableEq

/-- Strip every (left-to-right, non-overlapping) occurrence of `.tsv`,
mirroring Python `str.replace('.tsv', '')`. -/
def stripTsvAll : List Char → List Char
  | '.' :: 't' :: 's' :: 'v' :: rest => stripTsvAll rest
  | c :: rest => c :: stripTsvAll rest
  | [] => []

/-- `file.name.replace('.tsv', '').replace('.', '_')`. -/
def deriveTableName (fname : String) : String :=
  String.mk ((stripTsvAll fname.toList).map (fun c => if c = '.' then '_' else c))

/-- Reading a file into a table: the `\N` null sentinel becomes a true
null (`df.replace(r"\N", None)`). -/
def parseTsv (f : TsvFile) : Table :=
  f.rows.map (fun r => r.map (fun c => if c = "\\N" then none else some c))

/-- The destination catalog: named tables. -/
def Catalog : Type := List (String × Table)

/-- Look a table up by name. -/
def lookupTable : Catalog → String → Option Table
  | [], _ => none
  | (k, v) :: rest, n => if k = n then some v else lookupTable rest n

/-- Overwrite the (first) table of the given name, leaving the rest of the
catalog untouched. -/
def setTable : Catalog → String → Table → Catalog
  | [], _, _ => []
  | (k, v) :: rest, n, t => if k = n then (k, t) :: rest else (k, v) :: setTable rest n t

/-- One iteration of the loader loop: derive the table name, and only if a
table of that name already exists, overwrite it with the file's contents. -/
def loadStep (cat : Catalog) (f : TsvFile) : Catalog :=
  if (lookupTable cat (deriveTableName f.name)).isSome then
    setTable cat (deriveTableName f.name) (parseTsv f)
  else cat

/-- The full loader run over the files found in the download directory. -/
def loadAll (cat : Catalog) (files : List TsvFile) : Catalog :=
  files.foldl loadStep cat

/-! ### The box-office fetcher -/

/-- Append the loop year to an entry's partial release date:
`d['Release Date'] = d['Release Date'] + ' ' + str(y)`. -/
def annotateYear (y : Nat) (d : RawBoxRow) : RawBoxRow :=
  { d with ReleaseDate := d.ReleaseDate ++ " " ++ toString y }

/-- `for y in range(2010, 2025): ... json_data.append(daily_data)` — one
provider request per year, each entry stamped with that year, aggregated as
one inner list per year in year order. -/
def fetchBoxOffice (provider : Nat → List RawBoxRow) : List (List RawBoxRow) :=
  (List.range' 2010 15).map (fun y => (provider y).map (annotateYear y))

/-! ### Helper lemmas -/

theorem dedupAux_head? (l : List String) (seen : List String)
    (h : ∀ x ∈ l, x ∉ seen) : (dedupAux l seen).head? = l.head? := by
  cases l with
  | nil => rfl
  | cons x xs =>
    have hx : x ∉ seen := h x (List.mem_cons_self x xs)
    simp [dedupAux, hx]

theorem dedup_head? (l : List String) : (dedup l).head? = l.head? := by
  exact dedupAux_head? l [] (by intro x _ hx; exact (List.not_mem_nil x) hx)

theorem primary_genre_eq_filter_head (s : String) :
    primaryGenreOf (some s) =
      ((splitGenres s).filter (fun g => decide (g ∈ genres))).head? := by
  show (array_intersect (splitGenres s) genres).head? = _
  unfold array_intersect
  exact dedup_head? _

/-- The primary-genre computation the spec's sentence describes, word for
word: the first vocabulary element, in the vocabulary's own order, that
occurs among the title's genre tokens.  (This is the spec-side definition for
the refinement comparison; the code-side definition is `primaryGenreOf`.) -/
def specVocabOrderPrimary (g : Option String) : Option String :=
  match g with
  | none => none
  | some s => (genres.filter (fun v => decide (v ∈ splitGenres s))).head?

/-- C1: on the sample title record and the sample box-office record, the
pipeline emits exactly one merged row, with `Primary_Genre = "Action"`,
`Gross_Earnings = 10000`, `Total_Gross_Earnings = 50000` and
`Release_Date = 2020-01-01`. -/
theorem end_to_end_sample_merge :
    pipeline
      [⟨"Sample Movie", "Jan 1 2020", "$10,000", "$50,000"⟩]
      [⟨some "tt001", some "movie", some "Sample Movie", some "0", none,
        some "Action,Drama"⟩]
      [⟨some "tt001", some "7.5", some "1000"⟩] =
    [⟨"Sample Movie", some ⟨2020, 1, 1⟩, some (F32.finite 10000),
      some (F32.finite 50000), some "tt001", some "Sample Movie", none,
      some "7.5", some "1000", some "Action"⟩] := by
  decide

/-- C3 counterexample: for the genre list `"Drama,Action"` the code derives
`"Drama"` (the first match in the *title's* genre order), while the claim's
vocabulary-order rule would derive `"Action"`. -/
theorem primary_genre_vocab_order_refuted :
    primaryGenreOf (some "Drama,Action") = some "Drama" ∧
    specVocabOrderPrimary (some "Drama,Action") = some "Action" ∧
    (some "Drama" : Option String) ≠ some "Action" := by
  refine ⟨by decide, by decide, by decide⟩

/-- C3 (amended): for every genre string, the derived primary genre is the
first element, in the *title's own genre-list order*, among the elements
common to the title's genre tokens and the fixed vocabulary; it is absent
when there is no overlap. -/
theorem primary_genre_title_order (s : String) :
    primaryGenreOf (some s) =
      ((splitGenres s).filter (fun g => decide (g ∈ genres))).head? :=
  primary_genre_eq_filter_head s

/-- C4: whenever the derived primary genre is present it belongs both to the
title's own comma-split genre tokens and to the fixed vocabulary; and when
the intersection of tokens and vocabulary is empty, it is absent. -/
theorem primary_genre_membership (g : Option String) (p : String) :
    (primaryGenreOf g = some p →
      ∃ s, g = some s ∧ p ∈ splitGenres s ∧ p ∈ genres) ∧
    (∀ s, g = some s → array_intersect (splitGenres s) genres = [] →
      primaryGenreOf g = none) := by
  constructor
  · intro hp
    cases g with
    | none => exact absurd hp (by simp [primaryGenreOf])
    | some s =>
      refine ⟨s, rfl, ?_⟩
      rw [primary_genre_eq_filter_head s] at hp
      rcases hfil : (splitGenres s).filter (fun g => decide (g ∈ genres)) with
        _ | ⟨x, xs⟩
      · rw [hfil] at hp; exact absurd hp (by simp)
      · rw [hfil] at hp
        have hpx : p = x := by simpa using hp.symm
        have hx : x ∈ (splitGenres s).filter (fun g => decide (g ∈ genres)) := by
          rw [hfil]; exact List.mem_cons_self x xs
        rw [List.mem_filter] at hx
        exact hpx ▸ ⟨hx.1, by simpa using hx.2⟩
  · intro s hgs hint
    subst hgs
    show (array_intersect (splitGenres s) genres).head? = none
    rw [hint]
    rfl

/-- Witness for C4 at concrete inputs: `"Action"` is derived from
`"Action,Drama"` and lies in both the token list and the vocabulary, while a
title whose tokens miss the vocabulary entirely gets no primary genre. -/
theorem primary_genre_membership_witness :
    (∃ s, (some "Action,Drama" : Option String) = some s ∧
      "Action" ∈ splitGenres s ∧ "Action" ∈ genres) ∧
    primaryGenreOf (some "Film-Noir") = none :=
  ⟨(primary_genre_membership (some "Action,Drama") "Action").1 (by decide),
   (primary_genre_membership (some "Film-Noir") "x").2 "Film-Noir" rfl (by decide)⟩

/-- C5: every merged row pairs a box-office record with a title whose primary
title is character-for-character equal to the record's release title; and a
box-office record whose release title matches no title contributes no merged
row. -/
theorem join_exact_title_match (bs : List CleanBoxRow)
    (ts : List EnrichedTitleRow) :
    (∀ m ∈ joinBoxTitles bs ts, m.primaryTitle = some m.Release) ∧
    (∀ b ∈ bs, (∀ t ∈ ts, t.primaryTitle ≠ some b.Release) →
      ∀ m ∈ joinBoxTitles bs ts, m.Release ≠ b.Release) := by
  constructor
  · intro m hm
    simp only [joinBoxTitles, List.mem_flatMap, List.mem_map,
      List.mem_filter] at hm
    obtain ⟨b, hb, t, ⟨ht, hcond⟩, rfl⟩ := hm
    have hteq : t.primaryTitle = some b.Release := of_decide_eq_true hcond
    simpa [mkMergedRow] using hteq
  · intro b _ hnone m hm
    simp only [joinBoxTitles, List.mem_flatMap, List.mem_map,
      List.mem_filter] at hm
    obtain ⟨b', _, t, ⟨ht, hcond⟩, rfl⟩ := hm
    have hteq : t.primaryTitle = some b'.Release := of_decide_eq_true hcond
    intro hrel
    have : (mkMergedRow b' t).Release = b'.Release := rfl
    exact hnone t ht (by rw [hteq]; exact congrArg some (this ▸ hrel))

def wBoxA : CleanBoxRow := ⟨"A", none, none, none⟩

def wBoxC : CleanBoxRow := ⟨"C", none, none, none⟩

def wTitleC : EnrichedTitleRow := ⟨some "tC", some "C", none, none, none, none⟩

/-- Witness for C5: with box-office records `"A"` and `"C"` and a lone title
`"C"`, the record `"A"` (matching no title) yields no merged row named
`"A"`. -/
theorem join_exact_title_match_witness :
    (mkMergedRow wBoxC wTitleC).Release ≠ "A" :=
  (join_exact_title_match [wBoxA, wBoxC] [wTitleC]).2 wBoxA (by decide)
    (by decide) (mkMergedRow wBoxC wTitleC) (by decide)

/-- C6: every row of the catalog query originates from a basics row with
`titleType = "movie"` and `isAdult = "0"`; a `tvSeries` row never passes the
query's filter, regardless of its rating data. -/
theorem imdb_query_movie_filter (tb : List TitleBasicsRow)
    (tr : List TitleRatingsRow) :
    (∀ row ∈ imdbQuery tb tr, ∃ b ∈ tb, ∃ r ∈ tr,
      b.titleType = some "movie" ∧ b.isAdult = some "0" ∧ row = mkImdbRow b r) ∧
    (∀ b ∈ tb, b.titleType = some "tvSeries" →
      b ∉ tb.filter (fun b => decide (b.titleType = some "movie") &&
                              decide (b.isAdult = some "0"))) := by
  constructor
  · intro row hrow
    simp only [imdbQuery, List.mem_flatMap, List.mem_map,
      List.mem_filter] at hrow
    obtain ⟨b, ⟨hb, hcond⟩, r, ⟨hr, _⟩, rfl⟩ := hrow
    simp only [Bool.and_eq_true, decide_eq_true_eq] at hcond
    exact ⟨b, hb, r, hr, hcond.1, hcond.2, rfl⟩
  · intro b _ htv hmem
    rw [List.mem_filter] at hmem
    have hcond := hmem.2
    simp only [Bool.and_eq_true, decide_eq_true_eq] at hcond
    rw [htv] at hcond
    exact absurd hcond.1 (by simp)

def wBasicsMovie : TitleBasicsRow :=
  ⟨some "tt1", some "movie", some "T", some "0", none, none⟩

def wBasicsSeries : TitleBasicsRow :=
  ⟨some "tt2", some "tvSeries", some "S", some "0", none, some "Drama"⟩

def wRating : TitleRatingsRow := ⟨some "tt1", some "5.0", some "10"⟩

/-- Witness for C6 at concrete inputs: the emitted row originates from the
movie-typed basics row, and the `tvSeries` row is rejected by the filter. -/
theorem imdb_query_movie_filter_witness :
    (∃ b ∈ [wBasicsMovie, wBasicsSeries], ∃ r ∈ [wRating],
      b.titleType = some "movie" ∧ b.isAdult = some "0" ∧
      mkImdbRow wBasicsMovie wRating = mkImdbRow b r) ∧
    wBasicsSeries ∉
      [wBasicsMovie, wBasicsSeries].filter
        (fun b => decide (b.titleType = some "movie") &&
                  decide (b.isAdult = some "0")) :=
  ⟨(imdb_query_movie_filter [wBasicsMovie, wBasicsSeries] [wRating]).1
      (mkImdbRow wBasicsMovie wRating) (by decide),
   (imdb_query_movie_filter [wBasicsMovie, wBasicsSeries] [wRating]).2
      wBasicsSeries (by decide) rfl⟩

/-- C10: a movie/non-adult title row with a null genre list and a matching
rating row is neither dropped nor a source of errors: it still yields a row
of the enriched title set, with a null derived primary genre. -/
theorem null_genres_survive (tb : List TitleBasicsRow)
    (tr : List TitleRatingsRow) (b : TitleBasicsRow) (r : TitleRatingsRow)
    (hb : b ∈ tb) (hr : r ∈ tr) (ht : b.titleType = some "movie")
    (ha : b.isAdult = some "0") (hk : eqNotNull b.tconst r.tconst = true)
    (hg : b.genres = none) :
    ∃ row ∈ enrichedTitles tb tr,
      row.tconst = b.tconst ∧ row.Primary_Genre = none := by
  refine ⟨addPrimaryGenre (mkImdbRow b r), ?_, rfl, ?_⟩
  · apply List.mem_map_of_mem addPrimaryGenre
    simp only [imdbQuery, List.mem_flatMap, List.mem_map, List.mem_filter]
    exact ⟨b, ⟨hb, by simp [ht, ha]⟩, r, ⟨hr, hk⟩, rfl⟩
  · show primaryGenreOf (mkImdbRow b r).genres = none
    have : (mkImdbRow b r).genres = b.genres := rfl
    rw [this, hg]
    rfl

def wBasicsNullGenres : TitleBasicsRow :=
  ⟨some "tt9", some "movie", some "N", some "0", none, none⟩

def wRatingNine : TitleRatingsRow := ⟨some "tt9", some "6.1", some "42"⟩

/-- Witness for C10 at a concrete null-genres movie row. -/
theorem null_genres_survive_witness :
    ∃ row ∈ enrichedTitles [wBasicsNullGenres] [wRatingNine],
      row.tconst = wBasicsNullGenres.tconst ∧ row.Primary_Genre = none :=
  null_genres_survive [wBasicsNullGenres] [wRatingNine] wBasicsNullGenres
    wRatingNine (by decide) (by decide) rfl rfl (by decide) rfl

/-! ### Loader lemmas -/

theorem lookupTable_setTable_self (cat : Catalog) (n : String) (t : Table)
    (h : (lookupTable cat n).isSome = true) :
    lookupTable (setTable cat n t) n = some t := by
  induction cat with
  | nil => simp [lookupTable] at h
  | cons kv rest ih =>
    obtain ⟨k, v⟩ := kv
    by_cases hk : k = n
    · simp [setTable, lookupTable, hk]
    · simp only [setTable, if_neg hk, lookupTable]
      simp only [lookupTable, if_neg hk] at h
      exact ih h

theorem lookupTable_setTable_ne (cat : Catalog) (n : String) (t : Table)
    (m : String) (h : m ≠ n) :
    lookupTable (setTable cat n t) m = lookupTable cat m := by
  induction cat with
  | nil => rfl
  | cons kv rest ih =>
    obtain ⟨k, v⟩ := kv
    simp only [setTable]
    by_cases hk : k = n
    · rw [if_pos hk]
      have hkm : ¬ k = m := fun hkm => h (by rw [← hkm, hk])
      simp only [lookupTable, if_neg hkm]
    · rw [if_neg hk]
      simp only [lookupTable]
      by_cases hkm : k = m
      · rw [if_pos hkm, if_pos hkm]
      · rw [if_neg hkm, if_neg hkm]
        exact ih

theorem loadStep_lookup_ne (cat : Catalog) (f : TsvFile) (t : String)
    (h : t ≠ deriveTableName f.name) :
    lookupTable (loadStep cat f) t = lookupTable cat t := by
  unfold loadStep
  split
  · exact lookupTable_setTable_ne _ _ _ _ h
  · rfl

theorem loadStep_isSome (cat : Catalog) (f : TsvFile) (t : String) :
    (lookupTable (loadStep cat f) t).isSome = (lookupTable cat t).isSome := by
  by_cases ht : t = deriveTableName f.name
  · subst ht
    unfold loadStep
    split
    · rename_i hex
      rw [lookupTable_setTable_self _ _ _ hex, hex]
      rfl
    · rfl
  · rw [loadStep_lookup_ne _ _ _ ht]

theorem loadAll_cons (cat : Catalog) (f : TsvFile) (fs : List TsvFile) :
    loadAll cat (f :: fs) = loadAll (loadStep cat f) fs := rfl

theorem loadAll_isSome (cat : Catalog) (fs : List TsvFile) (t : String) :
    (lookupTable (loadAll cat fs) t).isSome = (lookupTable cat t).isSome := by
  induction fs generalizing cat with
  | nil => rfl
  | cons f fs ih => rw [loadAll_cons, ih, loadStep_isSome]

theorem loadAll_lookup_cases (cat : Catalog) (fs : List TsvFile) (t : String) :
    lookupTable (loadAll cat fs) t = lookupTable cat t ∨
    ∃ f ∈ fs, deriveTableName f.name = t := by
  induction fs generalizing cat with
  | nil => exact Or.inl rfl
  | cons f fs ih =>
    rw [loadAll_cons]
    rcases ih (loadStep cat f) with h | ⟨f', hf', hd⟩
    · by_cases ht : t = deriveTableName f.name
      · exact Or.inr ⟨f, List.mem_cons_self f fs, ht.symm⟩
      · exact Or.inl (by rw [h, loadStep_lookup_ne _ _ _ ht])
    · exact Or.inr ⟨f', List.mem_cons_of_mem f hf', hd⟩

theorem loadStep_writes (cat : Catalog) (f : TsvFile)
    (hex : (lookupTable cat (deriveTableName f.name)).isSome = true) :
    lookupTable (loadStep cat f) (deriveTableName f.name) = some (parseTsv f) := by
  unfold loadStep
  rw [if_pos hex]
  exact lookupTable_setTable_self _ _ _ hex

theorem loadStep_skips (cat : Catalog) (f : TsvFile)
    (hex : (lookupTable cat (deriveTableName f.name)).isSome = false) :
    loadStep cat f = cat := by
  unfold loadStep
  rw [hex]
  rfl

/-- Two catalogs that agree on whether table `t` exists, and whose values at
`t` either agree already or are about to be overwritten by one of the
remaining files, end up agreeing at `t` after the loader runs. -/
theorem loadAll_agree (fs : List TsvFile) (cat1 cat2 : Catalog) (t : String)
    (h1 : (lookupTable cat1 t).isSome = (lookupTable cat2 t).isSome)
    (h2 : lookupTable cat1 t = lookupTable cat2 t ∨
          ∃ f ∈ fs, deriveTableName f.name = t) :
    lookupTable (loadAll cat1 fs) t = lookupTable (loadAll cat2 fs) t := by
  induction fs generalizing cat1 cat2 with
  | nil =>
    rcases h2 with h | ⟨f, hf, _⟩
    · exact h
    · exact absurd hf (List.not_mem_nil f)
  | cons f fs ih =>
    rw [loadAll_cons, loadAll_cons]
    apply ih (loadStep cat1 f) (loadStep cat2 f)
    · rw [loadStep_isSome, loadStep_isSome, h1]
    · by_cases ht : t = deriveTableName f.name
      · by_cases hex : (lookupTable cat1 t).isSome = true
        · have hex2 : (lookupTable cat2 t).isSome = true := by rw [← h1]; exact hex
          rw [ht] at hex hex2
          exact Or.inl (by rw [ht, loadStep_writes _ _ hex, loadStep_writes _ _ hex2])
        · have hex1f : (lookupTable cat1 t).isSome = false :=
            Bool.not_eq_true _ ▸ Bool.of_not_eq_true hex
          have hex2f : (lookupTable cat2 t).isSome = false := by rw [← h1]; exact hex1f
          have h1n : lookupTable cat1 t = none := by
            cases hL : lookupTable cat1 t with
            | none => rfl
            | some v => rw [hL] at hex1f; exact absurd hex1f (by simp)
          have h2n : lookupTable cat2 t = none := by
            cases hL : lookupTable cat2 t with
            | none => rfl
            | some v => rw [hL] at hex2f; exact absurd hex2f (by simp)
          rw [ht] at hex1f hex2f
          rw [loadStep_skips _ _ hex1f, loadStep_skips _ _ hex2f]
          exact Or.inl (by rw [h1n, h2n])
      · rcases h2 with h | ⟨f', hf', hd⟩
        · exact Or.inl (by rw [loadStep_lookup_ne _ _ _ ht,
            loadStep_lookup_ne _ _ _ ht, h])
        · rcases List.mem_cons.mp hf' with rfl | hmem
          · exact absurd hd (fun hd => ht hd.symm)
          · exact Or.inr ⟨f', hmem, hd⟩

/-- C7: the loader writes a file's table only when a table of the derived
name already exists: without it, the step is a no-op; with it, the table is
overwritten with the file's parsed contents and every other table is left
untouched. -/
theorem loader_guarded_write (cat : Catalog) (f : TsvFile) :
    ((lookupTable cat (deriveTableName f.name)).isSome = false →
      loadStep cat f = cat) ∧
    ((lookupTable cat (deriveTableName f.name)).isSome = true →
      lookupTable (loadStep cat f) (deriveTableName f.name) =
        some (parseTsv f) ∧
      ∀ t, t ≠ deriveTableName f.name →
        lookupTable (loadStep cat f) t = lookupTable cat t) := by
  refine ⟨loadStep_skips cat f, fun h => ⟨loadStep_writes cat f h, ?_⟩⟩
  intro t ht
  exact loadStep_lookup_ne cat f t ht

def wCatalog : Catalog := [("title_basics", ([] : Table))]

def wFileBasics : TsvFile := ⟨"title.basics.tsv", [["tt1", "\\N"]]⟩

def wFileStray : TsvFile := ⟨"new.data.tsv", [["x"]]⟩

/-- Witness for C7: the existing `title_basics` table is overwritten with the
parsed file (the `\N` sentinel becoming null), while a stray file whose
derived table does not exist leaves the catalog unchanged. -/
theorem loader_guarded_write_witness :
    lookupTable (loadStep wCatalog wFileBasics) "title_basics" =
      some [[some "tt1", none]] ∧
    loadStep wCatalog wFileStray = wCatalog :=
  ⟨((loader_guarded_write wCatalog wFileBasics).2 (by decide)).1,
   (loader_guarded_write wCatalog wFileStray).1 (by decide)⟩

/-- C8: running the loader a second time over the same files leaves every
table's contents exactly as after the first run — each write is a full
overwrite determined only by the file's contents. -/
theorem loader_idempotent (cat : Catalog) (files : List TsvFile) (t : String) :
    lookupTable (loadAll (loadAll cat files) files) t =
    lookupTable (loadAll cat files) t :=
  loadAll_agree files (loadAll cat files) cat t
    (loadAll_isSome cat files t) (loadAll_lookup_cases cat files t)

/-- C9: the aggregated box-office result has exactly one inner list per year
of `range(2010, 2025)` in year order; the inner list of year `y` is the
provider's answer for `y` with each entry's release-date text extended by a
space and the decimal year. -/
theorem box_office_fetch_spec (provider : Nat → List RawBoxRow) (y : Nat)
    (h1 : 2010 ≤ y) (h2 : y < 2025) :
    (fetchBoxOffice provider).length = 15 ∧
    (fetchBoxOffice provider)[y - 2010]? =
      some ((provider y).map (annotateYear y)) ∧
    ∀ d ∈ provider y,
      (annotateYear y d).ReleaseDate = d.ReleaseDate ++ " " ++ toString y := by
  refine ⟨?_, ?_, fun d _ => rfl⟩
  · rw [fetchBoxOffice, List.length_map, List.length_range']
  · have hm : y - 2010 < 15 := by omega
    rw [fetchBoxOffice, List.getElem?_map, List.getElem?_range' _ _ hm]
    have hy : 2010 + 1 * (y - 2010) = y := by omega
    rw [hy]
    rfl

def wProvider : Nat → List RawBoxRow :=
  fun _ => [⟨"A", "Jan 1", "$1", "$2"⟩]

/-- Witness for C9 at year 2010 with a one-entry provider. -/
theorem box_office_fetch_spec_witness :
    (fetchBoxOffice wProvider)[2010 - 2010]? =
      some ((wProvider 2010).map (annotateYear 2010)) :=
  (box_office_fetch_spec wProvider 2010 (by decide) (by decide)).2.1

/-! ### Currency-conversion: float-string syntax specifications -/

theorem filter_cons_true {p : Char → Bool} {a : Char} {l : List Char}
    (h : p a = true) : (a :: l).filter p = a :: l.filter p := by
  simp [List.filter_cons, h]

theorem filter_cons_false {p : Char → Bool} {a : Char} {l : List Char}
    (h : p a = false) : (a :: l).filter p = l.filter p := by
  simp [List.filter_cons, h]

theorem mem_takeWhile (p : Char → Bool) (l : List Char) :
    ∀ c ∈ l.takeWhile p, p c = true := by
  induction l with
  | nil => intro c hc; exact absurd hc (List.not_mem_nil c)
  | cons x xs ih =>
    intro c hc
    rw [List.takeWhile_cons] at hc
    by_cases hx : p x = true
    · rw [if_pos hx] at hc
      rcases List.mem_cons.mp hc with rfl | hc'
      · exact hx
      · exact ih c hc'
    · rw [if_neg hx] at hc
      exact absurd hc (List.not_mem_nil c)

theorem dropWhile_eq_nil_of_all (p : Char → Bool) (l : List Char)
    (h : ∀ x ∈ l, p x = true) : l.dropWhile p = [] := by
  induction l with
  | nil => rfl
  | cons x xs ih =>
    rw [List.dropWhile_cons, if_pos (h x (List.mem_cons_self x xs))]
    exact ih (fun x hx => h x (List.mem_cons_of_mem _ hx))

theorem takeWhile_eq_self_of_all (p : Char → Bool) (l : List Char)
    (h : ∀ x ∈ l, p x = true) : l.takeWhile p = l := by
  induction l with
  | nil => rfl
  | cons x xs ih =>
    rw [List.takeWhile_cons, if_pos (h x (List.mem_cons_self x xs))]
    exact congrArg (x :: ·) (ih (fun x hx => h x (List.mem_cons_of_mem _ hx)))

theorem dropWhile_eq_self_of_all_false (p : Char → Bool) (l : List Char)
    (h : ∀ x ∈ l, p x = false) : l.dropWhile p = l := by
  cases l with
  | nil => rfl
  | cons x xs =>
    rw [List.dropWhile_cons]
    simp [h x (List.mem_cons_self x xs)]

theorem trimJava_eq_self (cs : List Char)
    (h : ∀ c ∈ cs, isJavaSpace c = false) : trimJava cs = cs := by
  unfold trimJava
  rw [dropWhile_eq_self_of_all_false _ _ h]
  rw [dropWhile_eq_self_of_all_false _ _
    (fun c hc => h c (List.mem_reverse.mp hc))]
  exact List.reverse_reverse cs

theorem digit_not_javaspace (c : Char) (h : c.isDigit = true) :
    isJavaSpace c = false := by
  unfold isJavaSpace
  rw [decide_eq_false_iff_not]
  intro hle
  simp [Char.isDigit] at h
  have hv : c.val ≤ ' '.val := hle
  have h1 := h.1
  simp [UInt32.le_def, BitVec.le_def] at h1 hv
  omega

/-- A character list spelling an unsigned decimal mantissa: either all digits
(and nonempty), or digits around a single decimal point with at least one
digit overall. -/
def MagSpec (cs : List Char) : Prop :=
  (cs ≠ [] ∧ ∀ c ∈ cs, c.isDigit = true) ∨
  (∃ ip fp, cs = ip ++ '.' :: fp ∧ (∀ c ∈ ip, c.isDigit = true) ∧
    (∀ c ∈ fp, c.isDigit = true) ∧ (ip ≠ [] ∨ fp ≠ []))

/-- A character list spelling a signed exponent part: digits with an
optional leading sign. -/
def ExpPartSpec (cs : List Char) : Prop :=
  (cs ≠ [] ∧ ∀ c ∈ cs, c.isDigit = true) ∨
  ∃ ds, (cs = '-' :: ds ∨ cs = '+' :: ds) ∧ ds ≠ [] ∧
    ∀ c ∈ ds, c.isDigit = true

/-- `cs` is `core` with at most one trailing float-type suffix character. -/
def SuffixOpt (cs core : List Char) : Prop :=
  cs = core ∨ ∃ c, isSuffixChar c = true ∧ cs = core ++ [c]

/-- A suffix-stripped decimal literal: a mantissa, optionally followed by
`e`/`E` and an exponent part. -/
def DecCoreSpec (cs : List Char) : Prop :=
  MagSpec cs ∨
  ∃ m e rest, (e = 'e' ∨ e = 'E') ∧ cs = m ++ e :: rest ∧ MagSpec m ∧
    ExpPartSpec rest

/-- A hexadecimal mantissa: hex digits, optionally around one point, with at
least one hex digit. -/
def HexMantSpec (cs : List Char) : Prop :=
  (cs ≠ [] ∧ ∀ c ∈ cs, isHexDig c = true) ∨
  ∃ hm hf, cs = hm ++ '.' :: hf ∧ (∀ c ∈ hm, isHexDig c = true) ∧
    (∀ c ∈ hf, isHexDig c = true) ∧ (hm ≠ [] ∨ hf ≠ [])

/-- A suffix-stripped hexadecimal literal: `0x`/`0X`, a hex mantissa, and a
mandatory `p`/`P` binary exponent. -/
def HexCoreSpec (cs : List Char) : Prop :=
  ∃ x m p rest, (x = 'x' ∨ x = 'X') ∧ (p = 'p' ∨ p = 'P') ∧
    cs = '0' :: x :: (m ++ p :: rest) ∧ HexMantSpec m ∧ ExpPartSpec rest

/-- An unsigned Java float string: `NaN`, `Infinity`, or a decimal or
hexadecimal literal with an optional type suffix. -/
def JavaUnsignedSpec (cs : List Char) : Prop :=
  cs = "NaN".toList ∨ cs = "Infinity".toList ∨
  ∃ core, SuffixOpt cs core ∧ (DecCoreSpec core ∨ HexCoreSpec core)

/-- One of Spark's special float literals, case-insensitively. -/
def SparkSpecialSpec (cs : List Char) : Prop :=
  cs.map Char.toLower = "inf".toList ∨
  cs.map Char.toLower = "+inf".toList ∨
  cs.map Char.toLower = "infinity".toList ∨
  cs.map Char.toLower = "+infinity".toList ∨
  cs.map Char.toLower = "-inf".toList ∨
  cs.map Char.toLower = "-infinity".toList ∨
  cs.map Char.toLower = "nan".toList

/-- A string the float cast accepts: an optionally signed Java float string,
or a Spark special literal. -/
def FloatSpec (cs : List Char) : Prop :=
  JavaUnsignedSpec cs ∨
  (∃ rest, (cs = '-' :: rest ∨ cs = '+' :: rest) ∧ JavaUnsignedSpec rest) ∨
  SparkSpecialSpec cs

theorem parseExpInt_sound (cs : List Char) (k : Int)
    (h : parseExpInt cs = some k) : ExpPartSpec cs := by
  unfold parseExpInt at h
  split at h
  · rename_i ds
    split at h
    · rename_i hc
      rw [Bool.and_eq_true] at hc
      refine Or.inr ⟨ds, Or.inl rfl, ?_, fun c hc' => List.all_eq_true.mp hc.2 c hc'⟩
      intro hnil
      rw [hnil] at hc
      simpa using hc.1
    · exact absurd h (by simp)
  · rename_i ds
    split at h
    · rename_i hc
      rw [Bool.and_eq_true] at hc
      refine Or.inr ⟨ds, Or.inr rfl, ?_, fun c hc' => List.all_eq_true.mp hc.2 c hc'⟩
      intro hnil
      rw [hnil] at hc
      simpa using hc.1
    · exact absurd h (by simp)
  · split at h
    · rename_i hc
      rw [Bool.and_eq_true] at hc
      refine Or.inl ⟨?_, fun c hc' => List.all_eq_true.mp hc.2 c hc'⟩
      intro hnil
      rw [hnil] at hc
      simpa using hc.1
    · exact absurd h (by simp)

theorem stripFloatSuffix_spec (cs : List Char) :
    SuffixOpt cs (stripFloatSuffix cs) := by
  cases hrev : cs.reverse with
  | nil => exact Or.inl (by simp [stripFloatSuffix, hrev])
  | cons c rest =>
    have hcs : cs = rest.reverse ++ [c] := by
      have h2 := congrArg List.reverse hrev
      rw [List.reverse_reverse] at h2
      rw [h2, List.reverse_cons]
    by_cases hsuf : isSuffixChar c = true
    · have hstrip : stripFloatSuffix cs = rest.reverse := by
        simp [stripFloatSuffix, hrev, hsuf]
      rw [hstrip]
      exact Or.inr ⟨c, hsuf, hcs⟩
    · have hstrip : stripFloatSuffix cs = cs := by
        simp [stripFloatSuffix, hrev, hsuf]
      rw [hstrip]
      exact Or.inl rfl

theorem decCore_sound (cs : List Char) (v : F32) (h : decCore cs = some v) :
    DecCoreSpec cs := by
  have hsplit : cs = cs.takeWhile Char.isDigit ++ cs.dropWhile Char.isDigit :=
    (List.takeWhile_append_dropWhile (p := Char.isDigit) (l := cs)).symm
  unfold decCore at h
  split at h
  · rename_i hdw
    split at h
    · exact absurd h (by simp)
    · rename_i hne
      refine Or.inl (Or.inl ⟨?_, ?_⟩)
      · intro hnil
        apply hne
        rw [hnil]
        rfl
      · intro c hc
        have hcs : cs = cs.takeWhile Char.isDigit := by
          conv_lhs => rw [hsplit]
          rw [hdw, List.append_nil]
        rw [hcs] at hc
        exact mem_takeWhile _ _ c hc
  · rename_i rest2 hdw
    have hrest2 : rest2 = rest2.takeWhile Char.isDigit ++ rest2.dropWhile Char.isDigit :=
      (List.takeWhile_append_dropWhile (p := Char.isDigit) (l := rest2)).symm
    split at h
    · rename_i hdw2
      split at h
      · exact absurd h (by simp)
      · rename_i hcond
        refine Or.inl (Or.inr ⟨cs.takeWhile Char.isDigit, rest2, ?_, ?_, ?_, ?_⟩)
        · conv_lhs => rw [hsplit]
          rw [hdw]
        · exact fun c hc => mem_takeWhile _ _ c hc
        · intro c hc
          have h2 : rest2 = rest2.takeWhile Char.isDigit := by
            conv_lhs => rw [hrest2]
            rw [hdw2, List.append_nil]
          rw [h2] at hc
          exact mem_takeWhile _ _ c hc
        · rw [Bool.not_eq_true, Bool.and_eq_false_iff] at hcond
          rcases hcond with hA | hB
          · left
            intro hnil
            rw [hnil] at hA
            simp at hA
          · right
            intro hnil
            rw [hnil] at hB
            simp at hB
    · rename_i e erest hdw2
      split at h
      · rename_i hcond
        rcases Option.map_eq_some'.mp h with ⟨k, hk, _⟩
        rw [Bool.and_eq_true] at hcond
        have he : e = 'e' ∨ e = 'E' := by
          rcases Bool.or_eq_true_iff.mp hcond.1 with h1 | h1
          · exact Or.inl (of_decide_eq_true h1)
          · exact Or.inr (of_decide_eq_true h1)
        refine Or.inr ⟨cs.takeWhile Char.isDigit ++ '.' :: rest2.takeWhile Char.isDigit,
          e, erest, he, ?_, ?_, parseExpInt_sound _ _ hk⟩
        · conv_lhs => rw [hsplit]
          rw [hdw]
          conv_lhs => rw [hrest2]
          rw [hdw2]
          simp [List.append_assoc]
        · refine Or.inr ⟨cs.takeWhile Char.isDigit, rest2.takeWhile Char.isDigit,
            rfl, fun c hc => mem_takeWhile _ _ c hc,
            fun c hc => mem_takeWhile _ _ c hc, ?_⟩
          have h3 := hcond.2
          rw [Bool.not_eq_true'] at h3
          rcases Bool.and_eq_false_iff.mp h3 with hA | hB
          · left
            intro hnil
            rw [hnil] at hA
            simp at hA
          · right
            intro hnil
            rw [hnil] at hB
            simp at hB
      · exact absurd h (by simp)
  · rename_i e erest hexcl hdw
    split at h
    · rename_i hcond
      rcases Option.map_eq_some'.mp h with ⟨k, hk, _⟩
      rw [Bool.and_eq_true] at hcond
      have he : e = 'e' ∨ e = 'E' := by
        rcases Bool.or_eq_true_iff.mp hcond.1 with h1 | h1
        · exact Or.inl (of_decide_eq_true h1)
        · exact Or.inr (of_decide_eq_true h1)
      refine Or.inr ⟨cs.takeWhile Char.isDigit, e, erest, he, ?_, ?_,
        parseExpInt_sound _ _ hk⟩
      · conv_lhs => rw [hsplit]
        rw [hdw]
      · refine Or.inl ⟨?_, fun c hc => mem_takeWhile _ _ c hc⟩
        have h3 := hcond.2
        rw [Bool.not_eq_true'] at h3
        intro hnil
        rw [hnil] at h3
        simp at h3
    · exact absurd h (by simp)

theorem hexCore_sound (cs : List Char) (v : F32) (h : hexCore cs = some v) :
    HexCoreSpec cs := by
  unfold hexCore at h
  split at h
  case h_2 => exact absurd h (by simp)
  case h_1 x cs2 =>
    split at h
    case isFalse => exact absurd h (by simp)
    case isTrue hx =>
      have hxor : x = 'x' ∨ x = 'X' := by
        rcases Bool.or_eq_true_iff.mp hx with h1 | h1
        · exact Or.inl (of_decide_eq_true h1)
        · exact Or.inr (of_decide_eq_true h1)
      have hsplit2 : cs2 = cs2.takeWhile isHexDig ++ cs2.dropWhile isHexDig :=
        (List.takeWhile_append_dropWhile (p := isHexDig) (l := cs2)).symm
      split at h
      · exact absurd h (by simp)
      · rename_i rest2 hdw
        have hsplit3 : rest2 = rest2.takeWhile isHexDig ++ rest2.dropWhile isHexDig :=
          (List.takeWhile_append_dropWhile (p := isHexDig) (l := rest2)).symm
        split at h
        · exact absurd h (by simp)
        · rename_i p er hdw2
          split at h
          · rename_i hcond
            rcases Option.map_eq_some'.mp h with ⟨k, hk, _⟩
            rw [Bool.and_eq_true] at hcond
            have hpor : p = 'p' ∨ p = 'P' := by
              rcases Bool.or_eq_true_iff.mp hcond.1 with h1 | h1
              · exact Or.inl (of_decide_eq_true h1)
              · exact Or.inr (of_decide_eq_true h1)
            have hcs2 : cs2 =
                (cs2.takeWhile isHexDig ++ '.' :: rest2.takeWhile isHexDig) ++
                  p :: er := by
              conv_lhs => rw [hsplit2]
              rw [hdw]
              conv_lhs => rw [hsplit3]
              rw [hdw2]
              simp [List.append_assoc]
            refine ⟨x, cs2.takeWhile isHexDig ++ '.' :: rest2.takeWhile isHexDig,
              p, er, hxor, hpor, ?_, ?_, parseExpInt_sound _ _ hk⟩
            · exact congrArg (fun l => '0' :: x :: l) hcs2
            · refine Or.inr ⟨cs2.takeWhile isHexDig, rest2.takeWhile isHexDig,
                rfl, fun c hc => mem_takeWhile _ _ c hc,
                fun c hc => mem_takeWhile _ _ c hc, ?_⟩
              have h3 := hcond.2
              rw [Bool.not_eq_true'] at h3
              rcases Bool.and_eq_false_iff.mp h3 with hA | hB
              · left
                intro hnil
                rw [hnil] at hA
                simp at hA
              · right
                intro hnil
                rw [hnil] at hB
                simp at hB
          · exact absurd h (by simp)
      · rename_i p er hexcl hdw
        split at h
        · rename_i hcond
          rcases Option.map_eq_some'.mp h with ⟨k, hk, _⟩
          rw [Bool.and_eq_true] at hcond
          have hpor : p = 'p' ∨ p = 'P' := by
            rcases Bool.or_eq_true_iff.mp hcond.1 with h1 | h1
            · exact Or.inl (of_decide_eq_true h1)
            · exact Or.inr (of_decide_eq_true h1)
          have hcs2 : cs2 = cs2.takeWhile isHexDig ++ p :: er := by
            conv_lhs => rw [hsplit2]
            rw [hdw]
          refine ⟨x, cs2.takeWhile isHexDig, p, er, hxor, hpor, ?_, ?_,
            parseExpInt_sound _ _ hk⟩
          · exact congrArg (fun l => '0' :: x :: l) hcs2
          · refine Or.inl ⟨?_, fun c hc => mem_takeWhile _ _ c hc⟩
            have h3 := hcond.2
            rw [Bool.not_eq_true'] at h3
            intro hnil
            rw [hnil] at h3
            simp at h3
        · exact absurd h (by simp)

theorem parseDecFloat_sound (cs : List Char) (v : F32)
    (h : parseDecFloat cs = some v) :
    ∃ core, SuffixOpt cs core ∧ (DecCoreSpec core ∨ HexCoreSpec core) :=
  ⟨stripFloatSuffix cs, stripFloatSuffix_spec cs,
    Or.inl (decCore_sound _ _ h)⟩

theorem parseHexFloat_sound (cs : List Char) (v : F32)
    (h : parseHexFloat cs = some v) :
    ∃ core, SuffixOpt cs core ∧ (DecCoreSpec core ∨ HexCoreSpec core) :=
  ⟨stripFloatSuffix cs, stripFloatSuffix_spec cs,
    Or.inr (hexCore_sound _ _ h)⟩

theorem parseUnsigned_sound (cs : List Char) (v : F32)
    (h : parseUnsigned cs = some v) : JavaUnsignedSpec cs := by
  unfold parseUnsigned at h
  split at h
  · rename_i hEq
    exact Or.inl hEq
  · split at h
    · rename_i hEq
      exact Or.inr (Or.inl hEq)
    · cases hph : parseHexFloat cs with
      | some w =>
        exact Or.inr (Or.inr (parseHexFloat_sound cs w hph))
      | none =>
        simp only [hph] at h
        exact Or.inr (Or.inr (parseDecFloat_sound cs v h))

theorem parseJavaFloat_sound (cs : List Char) (v : F32)
    (h : parseJavaFloat cs = some v) :
    JavaUnsignedSpec cs ∨
    ∃ rest, (cs = '-' :: rest ∨ cs = '+' :: rest) ∧ JavaUnsignedSpec rest := by
  unfold parseJavaFloat at h
  split at h
  · rename_i rest
    rcases Option.map_eq_some'.mp h with ⟨w, hw, _⟩
    exact Or.inr ⟨rest, Or.inl rfl, parseUnsigned_sound _ _ hw⟩
  · rename_i rest
    exact Or.inr ⟨rest, Or.inr rfl, parseUnsigned_sound _ _ h⟩
  · exact Or.inl (parseUnsigned_sound _ _ h)

theorem parseSparkSpecial_sound (cs : List Char) (v : F32)
    (h : parseSparkSpecial cs = some v) : SparkSpecialSpec cs := by
  unfold parseSparkSpecial at h
  split at h
  · rename_i hc
    rcases hc with h1 | h1 | h1 | h1
    · exact Or.inl h1
    · exact Or.inr (Or.inl h1)
    · exact Or.inr (Or.inr (Or.inl h1))
    · exact Or.inr (Or.inr (Or.inr (Or.inl h1)))
  · split at h
    · rename_i hc
      rcases hc with h1 | h1
      · exact Or.inr (Or.inr (Or.inr (Or.inr (Or.inl h1))))
      · exact Or.inr (Or.inr (Or.inr (Or.inr (Or.inr (Or.inl h1)))))
    · split at h
      · rename_i hc
        exact Or.inr (Or.inr (Or.inr (Or.inr (Or.inr (Or.inr hc)))))
      · exact absurd h (by simp)

theorem castFloat_sound (s : String) (v : F32) (h : castFloat s = some v) :
    FloatSpec (trimJava s.toList) := by
  unfold castFloat at h
  cases hpj : parseJavaFloat (trimJava s.toList) with
  | some w =>
    rcases parseJavaFloat_sound _ _ hpj with h1 | h1
    · exact Or.inl h1
    · exact Or.inr (Or.inl h1)
  | none =>
    simp only [hpj] at h
    exact Or.inr (Or.inr (parseSparkSpecial_sound _ _ h))

theorem isSuffixChar_digit_false (c : Char) (h : c.isDigit = true) :
    isSuffixChar c = false := by
  unfold isSuffixChar
  have hf : c ≠ 'f' := fun hEq => by rw [hEq] at h; exact absurd h (by decide)
  have hF : c ≠ 'F' := fun hEq => by rw [hEq] at h; exact absurd h (by decide)
  have hd : c ≠ 'd' := fun hEq => by rw [hEq] at h; exact absurd h (by decide)
  have hD : c ≠ 'D' := fun hEq => by rw [hEq] at h; exact absurd h (by decide)
  simp [hf, hF, hd, hD]

theorem stripFloatSuffix_digits (cs : List Char)
    (hd : ∀ c ∈ cs, c.isDigit = true) : stripFloatSuffix cs = cs := by
  cases hrev : cs.reverse with
  | nil => simp [stripFloatSuffix, hrev]
  | cons c rest =>
    have hc : c ∈ cs := by
      rw [← List.mem_reverse, hrev]
      exact List.mem_cons_self c rest
    have hsuf : isSuffixChar c = false := isSuffixChar_digit_false c (hd c hc)
    simp [stripFloatSuffix, hrev, hsuf]

theorem hexCore_digits_none (cs : List Char)
    (hd : ∀ c ∈ cs, c.isDigit = true) : hexCore cs = none := by
  unfold hexCore
  split
  case h_2 => rfl
  case h_1 x cs2 =>
    have hx : x.isDigit = true :=
      hd x (List.mem_cons_of_mem _ (List.mem_cons_self x cs2))
    have h1 : x ≠ 'x' := fun hEq => by rw [hEq] at hx; exact absurd hx (by decide)
    have h2 : x ≠ 'X' := fun hEq => by rw [hEq] at hx; exact absurd hx (by decide)
    simp [h1, h2]

theorem decCore_digits (cs : List Char) (hne : cs ≠ [])
    (hd : ∀ c ∈ cs, c.isDigit = true) :
    decCore cs = some (roundF32 ((natOfDigits cs : ℚ))) := by
  have hdw : cs.dropWhile Char.isDigit = [] := dropWhile_eq_nil_of_all _ _ hd
  have htw : cs.takeWhile Char.isDigit = cs := takeWhile_eq_self_of_all _ _ hd
  have hie : cs.isEmpty = false := by
    cases cs with
    | nil => exact absurd rfl hne
    | cons x xs => rfl
  unfold decCore
  rw [hdw, htw]
  simp [hie]

theorem parseJavaFloat_digits (cs : List Char) (hne : cs ≠ [])
    (hd : ∀ c ∈ cs, c.isDigit = true) :
    parseJavaFloat cs = some (roundF32 ((natOfDigits cs : ℚ))) := by
  cases cs with
  | nil => exact absurd rfl hne
  | cons c cs' =>
    have hc : c.isDigit = true := hd c (List.mem_cons_self c cs')
    have hsign : parseJavaFloat (c :: cs') = parseUnsigned (c :: cs') := by
      unfold parseJavaFloat
      split
      · rename_i heq
        injection heq with h1 _
        rw [h1] at hc
        exact absurd hc (by decide)
      · rename_i heq
        injection heq with h1 _
        rw [h1] at hc
        exact absurd hc (by decide)
      · rfl
    rw [hsign]
    have hnan : ¬(c :: cs' = "NaN".toList) := by
      intro hEq
      injection hEq with h1 _
      rw [h1] at hc
      exact absurd hc (by decide)
    have hinf : ¬(c :: cs' = "Infinity".toList) := by
      intro hEq
      injection hEq with h1 _
      rw [h1] at hc
      exact absurd hc (by decide)
    have hhex : parseHexFloat (c :: cs') = none := by
      unfold parseHexFloat
      rw [stripFloatSuffix_digits _ hd]
      exact hexCore_digits_none _ hd
    unfold parseUnsigned
    rw [if_neg hnan, if_neg hinf, hhex]
    show parseDecFloat (c :: cs') = _
    unfold parseDecFloat
    rw [stripFloatSuffix_digits _ hd]
    exact decCore_digits _ hne hd

/-- The shape `$d[,d]*`: a dollar sign, then a digit, then digits and comma
separators. -/
def grossPattern (s : String) : Bool :=
  match s.toList with
  | '$' :: c :: rest => c.isDigit && rest.all (fun x => x.isDigit || decide (x = ','))
  | _ => false

/-- C2: a gross-revenue text of shape `$d[,d]*` converts to exactly the
binary32 float value corresponding to the number its digits denote
(`roundF32` of the exact digit value, matching the program's float cast);
and an input whose stripped, trimmed text does not spell a float-castable
string (Java float literal or Spark special literal) converts to null — the
conversion is total, so no input aborts the run. -/
theorem gross_conversion_spec (s : String) :
    (grossPattern s = true →
      grossToNumber s =
        some (roundF32 ((natOfDigits (s.toList.filter Char.isDigit) : ℚ)))) ∧
    (¬ FloatSpec (trimJava (cleanCurrency s).toList) → grossToNumber s = none) := by
  constructor
  · intro hp
    unfold grossPattern at hp
    split at hp
    case h_2 => exact absurd hp (by simp)
    case h_1 c rest heq =>
      rw [Bool.and_eq_true] at hp
      have hc : c.isDigit = true := hp.1
      have hrest : ∀ x ∈ rest, x.isDigit = true ∨ x = ',' := by
        intro x hx
        have hx2 := List.all_eq_true.mp hp.2 x hx
        simpa using hx2
      have hdollar_c : (fun x => decide (x ≠ '$')) c = true := by
        simp only [decide_eq_true_eq]
        intro hEq
        rw [hEq] at hc
        exact absurd hc (by decide)
      have hdollar_rest : ∀ a ∈ rest, (fun x => decide (x ≠ '$')) a = true := by
        intro a ha
        simp only [decide_eq_true_eq]
        intro hEq
        rcases hrest a ha with hdg | hcm
        · rw [hEq] at hdg
          exact absurd hdg (by decide)
        · rw [hEq] at hcm
          exact absurd hcm (by decide)
      have h1 : ('$' :: c :: rest).filter (fun x => decide (x ≠ '$'))
          = c :: rest := by
        rw [filter_cons_false (show (fun x => decide (x ≠ '$')) '$' = false by decide),
          filter_cons_true hdollar_c,
          List.filter_eq_self.mpr hdollar_rest]
      have hcomma_c : (fun x => decide (x ≠ ',')) c = true := by
        simp only [decide_eq_true_eq]
        intro hEq
        rw [hEq] at hc
        exact absurd hc (by decide)
      have h2 : (c :: rest).filter (fun x => decide (x ≠ ','))
          = c :: rest.filter Char.isDigit := by
        rw [filter_cons_true hcomma_c]
        congr 1
        apply List.filter_congr
        intro a ha
        rcases hrest a ha with hdg | hcm
        · have hane : a ≠ ',' := by
            intro hEq
            rw [hEq] at hdg
            exact absurd hdg (by decide)
          rw [hdg, decide_eq_true hane]
        · subst hcm
          decide
      have hclean : (cleanCurrency s).toList = c :: rest.filter Char.isDigit := by
        show (s.toList.filter (fun x => decide (x ≠ '$'))).filter
          (fun x => decide (x ≠ ',')) = _
        rw [heq, h1, h2]
      have hdig : ∀ x ∈ c :: rest.filter Char.isDigit, x.isDigit = true := by
        intro x hx
        rcases List.mem_cons.mp hx with rfl | hx'
        · exact hc
        · exact (List.mem_filter.mp hx').2
      have hlist : s.toList.filter Char.isDigit = c :: rest.filter Char.isDigit := by
        rw [heq, filter_cons_false (show Char.isDigit '$' = false by decide),
          filter_cons_true hc]
      show castFloat (cleanCurrency s) = _
      unfold castFloat
      rw [hclean,
        trimJava_eq_self _ (fun ch hch => digit_not_javaspace ch (hdig ch hch)),
        parseJavaFloat_digits _ (by simp) hdig, hlist]
  · intro hns
    show castFloat (cleanCurrency s) = none
    cases hcf : castFloat (cleanCurrency s) with
    | none => rfl
    | some v => exact absurd (castFloat_sound _ v hcf) hns

/-- Witness for C2: `"$1,234,567"` converts to the float 1234567 (exactly
representable in binary32), and the malformed `"N/A"` converts to null. -/
theorem gross_conversion_spec_witness :
    (grossPattern "$1,234,567" = true ∧
      grossToNumber "$1,234,567" = some (F32.finite 1234567)) ∧
    grossToNumber "N/A" = none := by
  refine ⟨⟨by decide, ?_⟩, ?_⟩
  · rw [(gross_conversion_spec "$1,234,567").1 (by decide)]
    decide
  · apply (gross_conversion_spec "N/A").2
    intro h
    have hl : trimJava (cleanCurrency "N/A").toList = ['N', '/', 'A'] := by decide
    rw [hl] at h
    rcases h with hjava | ⟨rest, hsign, _⟩ | hspark
    · rcases hjava with hnan | hinf | ⟨core, hsufo, hcore⟩
      · exact absurd hnan (by decide)
      · exact absurd hinf (by decide)
      · have hcoreEq : core = ['N', '/', 'A'] := by
          rcases hsufo with hEq | ⟨c, hsufc, hEq⟩
          · exact hEq.symm
          · exfalso
            have hlast : (['N', '/', 'A'] : List Char).getLast? = some c := by
              rw [hEq]
              exact List.getLast?_concat _
            have h0 : (['N', '/', 'A'] : List Char).getLast? = some 'A' := rfl
            rw [h0] at hlast
            injection hlast with hca
            rw [← hca] at hsufc
            exact absurd hsufc (by decide)
        subst hcoreEq
        rcases hcore with hdec | hhex
        · rcases hdec with hmag | ⟨m, e, r, he, hEq2, _, _⟩
          · rcases hmag with ⟨_, hall⟩ | ⟨ip, fp, hEq3, _, _, _⟩
            · exact absurd (hall 'N' (by decide)) (by decide)
            · have hdot : '.' ∈ (['N', '/', 'A'] : List Char) := by
                rw [hEq3]
                exact List.mem_append_right ip (List.mem_cons_self '.' fp)
              exact absurd hdot (by decide)
          · have he' : e ∈ (['N', '/', 'A'] : List Char) := by
              rw [hEq2]
              exact List.mem_append_right m (List.mem_cons_self e r)
            rcases he with rfl | rfl <;> exact absurd he' (by decide)
        · rcases hhex with ⟨x, m, p, r, _, _, hEq2, _, _⟩
          injection hEq2 with h0 _
          exact absurd h0 (by decide)
    · rcases hsign with hEq | hEq <;>
        (injection hEq with h0 _; exact absurd h0 (by decide))
    · rcases hspark with h1 | h1 | h1 | h1 | h1 | h1 | h1 <;>
        exact absurd h1 (by decide)

end ImdbAnalysis
